import Mathlib

/-!
Verification of the formation-planner core (src/app/formation.tsx).

The embedding models the player registry and the formation-screen
operations over exact rational coordinates.  Each definition mirrors one
function of the source file:

* `Player` mirrors the `Player` interface (id, name, x, y, isAvailable,
  isOnField).
* `tableCoord`, `gridCoord`, `rawCoord`, `clampCoord`, `arrangeAssign`
  and `arrangeOp` together embed `arrangeInGAAFormation`.
* `posChange` mirrors `handlePositionChange`, `dragToSubBench` mirrors
  `handleDragToSubBench`, `dragToField` mirrors `handleDragToField`.
* `fieldReleaseOp` / `subReleaseOp` mirror the release classification in
  `DraggablePlayer.onPanResponderRelease` composed with the handlers.
* `swapOp` / `swapResolve` / `swapZeroOp` mirror `handlePlayerSwap`.
* `resetOp` mirrors the confirmed branch of `resetPositions`.
* `seedPlayers` mirrors the initial construction of `allPlayers`,
  `mergePositions` mirrors `loadFormationPositions`.

Randomness (`Math.random()`) is modelled by explicit draw functions
`Nat → ℚ × ℚ` giving one draw pair per player position.
-/

/-- Mirrors the `Player` interface of `formation.tsx`. -/
structure Player where
  id : String
  name : String
  x : ℚ
  y : ℚ
  isAvailable : Bool
  isOnField : Bool
  deriving Repr, DecidableEq

/-- Mirrors the setup-phase player record (`id`, `name`, `isAvailable`)
handed to the formation screen through the navigation params. -/
structure SetupPlayer where
  id : String
  name : String
  isAvailable : Bool
  deriving Repr, DecidableEq

/-- Mirrors one entry of the saved formation snapshot
(`{id, x, y, isOnField}`). -/
structure SavedPos where
  id : String
  x : ℚ
  y : ℚ
  isOnField : Bool
  deriving Repr, DecidableEq

/-- `const PLAYER_SIZE = 60`. -/
def PLAYER_SIZE : ℚ := 60

/-- `Math.max(0, Math.min(fieldWidth - PLAYER_SIZE, x))`. -/
def clampX (w v : ℚ) : ℚ := max 0 (min (w - PLAYER_SIZE) v)

/-- `Math.max(0, Math.min(fieldHeight - PLAYER_SIZE, y))`. -/
def clampY (h v : ℚ) : ℚ := max 0 (min (h - PLAYER_SIZE) v)

/-- The `switch (index)` block of `arrangeInGAAFormation` used when
`playersCount <= 15`: the traditional positional table, plus the
`default` vertical stack for indices past 14. -/
def tableCoord (w h : ℚ) (index : Nat) : ℚ × ℚ :=
  match index with
  | 0 => (w * (1/2) - PLAYER_SIZE / 2, h * (1/20))
  | 1 => (w * (1/4) - PLAYER_SIZE / 2, h * (3/20))
  | 2 => (w * (1/2) - PLAYER_SIZE / 2, h * (3/20))
  | 3 => (w * (3/4) - PLAYER_SIZE / 2, h * (3/20))
  | 4 => (w * (1/4) - PLAYER_SIZE / 2, h * (7/20))
  | 5 => (w * (1/2) - PLAYER_SIZE / 2, h * (7/20))
  | 6 => (w * (3/4) - PLAYER_SIZE / 2, h * (7/20))
  | 7 => (w * (2/5) - PLAYER_SIZE / 2, h * (1/2))
  | 8 => (w * (3/5) - PLAYER_SIZE / 2, h * (1/2))
  | 9 => (w * (1/4) - PLAYER_SIZE / 2, h * (13/20))
  | 10 => (w * (1/2) - PLAYER_SIZE / 2, h * (13/20))
  | 11 => (w * (3/4) - PLAYER_SIZE / 2, h * (13/20))
  | 12 => (w * (1/4) - PLAYER_SIZE / 2, h * (17/20))
  | 13 => (w * (1/2) - PLAYER_SIZE / 2, h * (17/20))
  | 14 => (w * (3/4) - PLAYER_SIZE / 2, h * (17/20))
  | i + 15 => (w * (1/2) - PLAYER_SIZE / 2, h * (7/10) + (i : ℚ) * 40)

/-- `Math.ceil(Math.sqrt(playersCount))`. -/
def gridCols (n : Nat) : Nat :=
  let s := Nat.sqrt n
  if s * s = n then s else s + 1

/-- The even-grid branch of `arrangeInGAAFormation` used when
`playersCount > 15`. -/
def gridCoord (n : Nat) (w h : ℚ) (index : Nat) : ℚ × ℚ :=
  let cols := gridCols n
  let rows := (n + cols - 1) / cols
  let col := index % cols
  let row := index / cols
  ((w / ((cols : ℚ) + 1)) * ((col : ℚ) + 1) - PLAYER_SIZE / 2,
   (h / ((rows : ℚ) + 1)) * ((row : ℚ) + 1) - PLAYER_SIZE / 2)

/-- The unclamped coordinate `arrangeInGAAFormation` computes for a
field player at position `index` in the field-player list, with `n`
field players in total. -/
def rawCoord (n : Nat) (w h : ℚ) (index : Nat) : ℚ × ℚ :=
  if n ≤ 15 then tableCoord w h index else gridCoord n w h index

/-- The final per-coordinate bounds clamp of `arrangeInGAAFormation`
(`finalX`/`finalY`). -/
def clampCoord (w h : ℚ) (c : ℚ × ℚ) : ℚ × ℚ :=
  (clampX w c.1, clampY h c.2)

/-- The list of clamped coordinates `arrangeInGAAFormation` assigns to
the field players, by index. -/
def arrangeCoords (n : Nat) (w h : ℚ) : List (ℚ × ℚ) :=
  (List.range n).map (fun i => clampCoord w h (rawCoord n w h i))

/-- The predicate `p.isOnField && p.isAvailable` used to build
`fieldPlayersList`. -/
def fieldFilter (p : Player) : Bool := p.isOnField && p.isAvailable

/-- The per-player body of the `players.map` in
`arrangeInGAAFormation`: bench or unavailable players pass through,
field players get the clamped coordinate for their index in `fl`. -/
def arrangeAssign (fl : List Player) (n : Nat) (w h : ℚ) (p : Player) : Player :=
  if fieldFilter p then
    let c := clampCoord w h (rawCoord n w h (fl.findIdx (fun q => q.id == p.id)))
    { p with x := c.1, y := c.2 }
  else p

/-- `arrangeInGAAFormation`: no-op when there are no field players,
otherwise reassign every field player's coordinates. -/
def arrangeOp (w h : ℚ) (ps : List Player) : List Player :=
  let fl := ps.filter fieldFilter
  if fl.length = 0 then ps
  else ps.map (arrangeAssign fl fl.length w h)

/-- `handlePositionChange`. -/
def posChange (pid : String) (nx ny : ℚ) (ps : List Player) : List Player :=
  ps.map (fun p => if p.id = pid then { p with x := nx, y := ny } else p)

/-- `handleDragToSubBench`. -/
def dragToSubBench (pid : String) (ps : List Player) : List Player :=
  ps.map (fun p =>
    if p.id = pid then { p with isOnField := false, x := 0, y := 0 } else p)

/-- `handleDragToField`. -/
def dragToField (pid : String) (nx ny : ℚ) (ps : List Player) : List Player :=
  ps.map (fun p =>
    if p.id = pid then { p with isOnField := true, x := nx, y := ny } else p)

/-- Release of a dragged field player: the sub-bench test
`currentY > fieldHeight - 20` picks `handleDragToSubBench`, otherwise
the release point is clamped and `handlePositionChange` commits it. -/
def fieldReleaseOp (w h : ℚ) (pid : String) (rx ry : ℚ)
    (ps : List Player) : List Player :=
  if ry > h - 20 then dragToSubBench pid ps
  else posChange pid (clampX w rx) (clampY h ry) ps

/-- Release of a dragged substitute: the in-field test
`currentY < fieldHeight && currentX >= 0 && currentX <= fieldWidth`
picks `handleDragToField` with clamped coordinates, otherwise the
registry is untouched (the player snaps back visually). -/
def subReleaseOp (w h : ℚ) (pid : String) (rx ry : ℚ)
    (ps : List Player) : List Player :=
  if ry < h ∧ 0 ≤ rx ∧ rx ≤ w then
    dragToField pid (clampX w rx) (clampY h ry) ps
  else ps

/-- The mutation performed by `handlePlayerSwap` once the caller picks
the field player `fp` from the selection dialog. -/
def swapOp (subId : String) (fp : Player) (ps : List Player) : List Player :=
  ps.map (fun p =>
    if p.id = subId then { p with isOnField := true, x := fp.x, y := fp.y }
    else if p.id = fp.id then { p with isOnField := false, x := 0, y := 0 }
    else p)

/-- `handlePlayerSwap` with the dialog outcome made explicit: `some fp`
is a choice of field player, `none` is the Cancel button. -/
def swapResolve (subId : String) (choice : Option Player)
    (ps : List Player) : List Player :=
  match choice with
  | some fp => swapOp subId fp ps
  | none => ps

/-- The zero-field-players branch of `handlePlayerSwap`: the tapped
substitute moves straight to the field at a random position
`Math.random() * (dim - PLAYER_SIZE) + 10`. -/
def swapZeroOp (subId : String) (r1 r2 w h : ℚ) (ps : List Player) : List Player :=
  dragToField subId (r1 * (w - PLAYER_SIZE) + 10) (r2 * (h - PLAYER_SIZE) + 10) ps

/-- The confirmed branch of `resetPositions`: field players get fresh
draws `Math.random() * (dim - PLAYER_SIZE) + 10` on each axis, bench
players get `(0, 0)`.  `draw i` supplies the pair of draws used for the
player at list position `i`. -/
def resetOp (draw : Nat → ℚ × ℚ) (w h : ℚ) : Nat → List Player → List Player
  | _, [] => []
  | i, p :: ps =>
      { p with
        x := if p.isOnField then (draw i).1 * (w - PLAYER_SIZE) + 10 else 0,
        y := if p.isOnField then (draw i).2 * (h - PLAYER_SIZE) + 10 else 0 }
        :: resetOp draw w h (i + 1) ps

/-- The construction of `allPlayers` at session start: random seed
coordinates `Math.random() * 200 + 50` and `isOnField := isAvailable`. -/
def seedPlayers (draw : Nat → ℚ × ℚ) : Nat → List SetupPlayer → List Player
  | _, [] => []
  | i, b :: bs =>
      { id := b.id, name := b.name,
        x := (draw i).1 * 200 + 50, y := (draw i).2 * 200 + 50,
        isAvailable := b.isAvailable, isOnField := b.isAvailable }
        :: seedPlayers draw (i + 1) bs

/-- The merge performed by `loadFormationPositions`: saved `x`, `y`,
`isOnField` are applied to the player with the matching id; players
without a saved entry are untouched. -/
def mergePositions (saved : List SavedPos) (ps : List Player) : List Player :=
  ps.map (fun p =>
    match saved.find? (fun s => s.id == p.id) with
    | some s => { p with x := s.x, y := s.y, isOnField := s.isOnField }
    | none => p)

/-- The formation-screen state: measured pitch dimensions plus the
player registry. -/
structure FState where
  width : ℚ
  height : ℚ
  players : List Player
  deriving Repr, DecidableEq

/-- `(players.filter fieldFilter).length`: the number of field players. -/
def fieldCount (ps : List Player) : Nat := (ps.filter fieldFilter).length

/-- Availability invariant: an unavailable player is never on the field. -/
def AvailInv (ps : List Player) : Prop :=
  ∀ p ∈ ps, p.isAvailable = false → p.isOnField = false

/-- Ids are pairwise distinct in the registry. -/
def NodupIds (ps : List Player) : Prop := (ps.map Player.id).Nodup

/-- One user-visible formation-screen event, with the conditions under
which the UI can emit it: drags start only on rendered players (field
players render once both dimensions are positive; the bench renders
available off-field players), the swap dialog offers exactly the
current field players, and its zero-field branch fires only when no
field player exists. -/
inductive Step : FState → FState → Prop where
  | layout (s : FState) (w h : ℚ) :
      Step s ⟨w, h, s.players⟩
  | fieldRelease (s : FState) (pid : String) (rx ry : ℚ)
      (hmem : ∃ p ∈ s.players, p.id = pid ∧ p.isOnField = true ∧ p.isAvailable = true)
      (hw : 0 < s.width) (hh : 0 < s.height) :
      Step s ⟨s.width, s.height, fieldReleaseOp s.width s.height pid rx ry s.players⟩
  | subRelease (s : FState) (pid : String) (rx ry : ℚ)
      (hmem : ∃ p ∈ s.players, p.id = pid ∧ p.isOnField = false ∧ p.isAvailable = true) :
      Step s ⟨s.width, s.height, subReleaseOp s.width s.height pid rx ry s.players⟩
  | swapChoose (s : FState) (subId : String) (fp : Player)
      (hsub : ∃ p ∈ s.players, p.id = subId ∧ p.isOnField = false ∧ p.isAvailable = true)
      (hfp : fp ∈ s.players ∧ fp.isOnField = true ∧ fp.isAvailable = true) :
      Step s ⟨s.width, s.height, swapOp subId fp s.players⟩
  | swapCancel (s : FState) (subId : String)
      (hsub : ∃ p ∈ s.players, p.id = subId ∧ p.isOnField = false ∧ p.isAvailable = true) :
      Step s ⟨s.width, s.height, swapResolve subId none s.players⟩
  | swapZero (s : FState) (subId : String) (r1 r2 : ℚ)
      (hsub : ∃ p ∈ s.players, p.id = subId ∧ p.isOnField = false ∧ p.isAvailable = true)
      (hzero : fieldCount s.players = 0) :
      Step s ⟨s.width, s.height, swapZeroOp subId r1 r2 s.width s.height s.players⟩
  | arrangeStep (s : FState) :
      Step s ⟨s.width, s.height, arrangeOp s.width s.height s.players⟩
  | resetStep (s : FState) (draw : Nat → ℚ × ℚ) :
      Step s ⟨s.width, s.height, resetOp draw s.width s.height 0 s.players⟩

/-- States reachable on the formation screen, starting from the seeded
registry (ids unique per the squad data model) and closed under the
formation-screen events; the session-start storage merge is not
included. -/
inductive Reach : FState → Prop where
  | seed (base : List SetupPlayer) (draw : Nat → ℚ × ℚ)
      (hnodup : (base.map SetupPlayer.id).Nodup) :
      Reach ⟨0, 0, seedPlayers draw 0 base⟩
  | step {s t : FState} : Reach s → Step s t → Reach t

/-- The identity/name/availability view of the registry: the fields no
formation-screen operation may touch, in registry order. -/
def regView (ps : List Player) : List (String × String × Bool) :=
  ps.map (fun p => (p.id, p.name, p.isAvailable))

/-- A constant draw function: every draw is `1/2`. -/
def drawHalf : Nat → ℚ × ℚ := fun _ => (1/2, 1/2)

/-- A constant draw function: every draw is `99/100`. -/
def drawNinetyNine : Nat → ℚ × ℚ := fun _ => (99/100, 99/100)

/-- A constant draw function: every draw is `0`. -/
def drawZero : Nat → ℚ × ℚ := fun _ => (0, 0)

/-- A registry with a single available field player at `(5, 5)`. -/
def soloField : List Player := [⟨"a", "A", 5, 5, true, true⟩]

/-- A registry with a single available substitute. -/
def soloSub : List Player := [⟨"a", "A", 0, 0, true, false⟩]

/-- A registry with one available substitute `"s"` and one available
field player `"f"`. -/
def pairSquad : List Player :=
  [⟨"s", "S", 1, 2, true, false⟩, ⟨"f", "F", 7, 8, true, true⟩]

/-- A setup list with a single unavailable player. -/
def unavailBase : List SetupPlayer := [⟨"a", "A", false⟩]

/-- A saved formation snapshot marking player `"a"` as on the field. -/
def savedOnField : List SavedPos := [⟨"a", 3, 4, true⟩]

/-! ### Basic facts about the per-player updates -/

theorem arrangeAssign_id (fl : List Player) (n : Nat) (w h : ℚ) (p : Player) :
    (arrangeAssign fl n w h p).id = p.id := by
  unfold arrangeAssign
  split <;> rfl

theorem arrangeAssign_name (fl : List Player) (n : Nat) (w h : ℚ) (p : Player) :
    (arrangeAssign fl n w h p).name = p.name := by
  unfold arrangeAssign
  split <;> rfl

theorem arrangeAssign_isAvailable (fl : List Player) (n : Nat) (w h : ℚ) (p : Player) :
    (arrangeAssign fl n w h p).isAvailable = p.isAvailable := by
  unfold arrangeAssign
  split <;> rfl

theorem arrangeAssign_isOnField (fl : List Player) (n : Nat) (w h : ℚ) (p : Player) :
    (arrangeAssign fl n w h p).isOnField = p.isOnField := by
  unfold arrangeAssign
  split <;> rfl

theorem arrangeAssign_fieldFilter (fl : List Player) (n : Nat) (w h : ℚ) (p : Player) :
    fieldFilter (arrangeAssign fl n w h p) = fieldFilter p := by
  unfold fieldFilter
  rw [arrangeAssign_isOnField, arrangeAssign_isAvailable]

/-- `regView` is blind to updates that keep id, name and availability. -/
theorem regView_map (f : Player → Player)
    (hf : ∀ p, (f p).id = p.id ∧ (f p).name = p.name ∧ (f p).isAvailable = p.isAvailable)
    (ps : List Player) : regView (ps.map f) = regView ps := by
  unfold regView
  rw [List.map_map]
  apply List.map_congr_left
  intro p _
  show ((f p).id, (f p).name, (f p).isAvailable) = (p.id, p.name, p.isAvailable)
  rw [(hf p).1, (hf p).2.1, (hf p).2.2]

theorem regView_resetOp (draw : Nat → ℚ × ℚ) (w h : ℚ) (k : Nat) (ps : List Player) :
    regView (resetOp draw w h k ps) = regView ps := by
  induction ps generalizing k with
  | nil => rfl
  | cons p ps ih =>
    show regView (_ :: resetOp draw w h (k + 1) ps) = _
    unfold regView at *
    simp only [List.map_cons]
    rw [show (List.map (fun p => (p.id, p.name, p.isAvailable)) (resetOp draw w h (k + 1) ps)) = _ from ih (k + 1)]

/-! ### Claim C10: frame conditions of the mutating operations -/

/-- Claim C10: every formation-screen mutating operation (position
change, drag to bench, drag to field, swap in all its outcomes,
auto-arrange, reset) preserves the number of players, their order, and
each player's id, name and availability flag: the `regView` projection
of the registry is unchanged, so only `x`, `y` and `isOnField` are ever
modified. -/
theorem c10_frame_preservation (w h nx ny rx ry : ℚ) (pid subId : String)
    (fp : Player) (choice : Option Player) (draw : Nat → ℚ × ℚ) (k : Nat)
    (ps : List Player) :
    regView (posChange pid nx ny ps) = regView ps ∧
    regView (dragToSubBench pid ps) = regView ps ∧
    regView (dragToField pid nx ny ps) = regView ps ∧
    regView (swapResolve subId choice ps) = regView ps ∧
    regView (swapOp subId fp ps) = regView ps ∧
    regView (fieldReleaseOp w h pid rx ry ps) = regView ps ∧
    regView (subReleaseOp w h pid rx ry ps) = regView ps ∧
    regView (swapZeroOp subId rx ry w h ps) = regView ps ∧
    regView (arrangeOp w h ps) = regView ps ∧
    regView (resetOp draw w h k ps) = regView ps := by
  have hpos : ∀ (nx ny : ℚ), regView (posChange pid nx ny ps) = regView ps := by
    intro nx ny
    apply regView_map
    intro p
    by_cases hp : p.id = pid <;> simp [hp]
  have hbench : regView (dragToSubBench pid ps) = regView ps := by
    apply regView_map
    intro p
    by_cases hp : p.id = pid <;> simp [hp]
  have hfieldDrop : ∀ (pid : String) (nx ny : ℚ),
      regView (dragToField pid nx ny ps) = regView ps := by
    intro pid nx ny
    apply regView_map
    intro p
    by_cases hp : p.id = pid <;> simp [hp]
  have hswap : ∀ (fq : Player), regView (swapOp subId fq ps) = regView ps := by
    intro fq
    apply regView_map
    intro p
    by_cases h1 : p.id = subId
    · simp [if_pos h1]
    · by_cases h2 : p.id = fq.id
      · simp [if_neg h1, if_pos h2]
      · simp [if_neg h1, if_neg h2]
  have harr : regView (arrangeOp w h ps) = regView ps := by
    by_cases hfl : (ps.filter fieldFilter).length = 0
    · simp [arrangeOp, hfl]
    · have hm := regView_map
        (arrangeAssign (ps.filter fieldFilter) (ps.filter fieldFilter).length w h)
        (fun p => ⟨arrangeAssign_id _ _ _ _ p, arrangeAssign_name _ _ _ _ p,
          arrangeAssign_isAvailable _ _ _ _ p⟩) ps
      simpa [arrangeOp, hfl] using hm
  refine ⟨hpos nx ny, hbench, hfieldDrop pid nx ny, ?_, hswap fp, ?_, ?_, ?_,
    harr, regView_resetOp draw w h k ps⟩
  · cases choice with
    | none => rfl
    | some fp => exact hswap fp
  · unfold fieldReleaseOp
    split
    · exact hbench
    · exact hpos _ _
  · unfold subReleaseOp
    split
    · exact hfieldDrop pid _ _
    · rfl
  · unfold swapZeroOp
    exact hfieldDrop subId _ _

/-! ### Claim C6: the bench-drop zone -/

/-- Claim C6: for every release point with `y > fieldHeight - 20`,
regardless of the release `x`, the field-player drag release moves the
dragged player off the field with coordinates `(0, 0)`. -/
theorem c6_bench_drop (w h : ℚ) (pid : String) (rx ry : ℚ) (ps : List Player)
    (hzone : ry > h - 20) :
    ∀ p ∈ fieldReleaseOp w h pid rx ry ps,
      p.id = pid → p.isOnField = false ∧ p.x = 0 ∧ p.y = 0 := by
  intro p hp hid
  unfold fieldReleaseOp at hp
  rw [if_pos hzone] at hp
  unfold dragToSubBench at hp
  obtain ⟨q, hq, rfl⟩ := List.mem_map.1 hp
  by_cases hq' : q.id = pid
  · rw [if_pos hq']
    exact ⟨rfl, rfl, rfl⟩
  · rw [if_neg hq'] at hid ⊢
    exact absurd hid hq'

/-- Witness for C6 at a concrete state: one field player released at
`(100, 795)` on a `400 × 800` pitch lands on the bench at `(0, 0)`. -/
theorem c6_witness :
    (Player.mk "a" "A" 0 0 true false).isOnField = false ∧
    (Player.mk "a" "A" 0 0 true false).x = 0 ∧
    (Player.mk "a" "A" 0 0 true false).y = 0 := by
  have hmem : Player.mk "a" "A" 0 0 true false ∈
      fieldReleaseOp 400 800 "a" 100 795 soloField := by
    have : fieldReleaseOp 400 800 "a" 100 795 soloField =
        [Player.mk "a" "A" 0 0 true false] := by
      unfold fieldReleaseOp
      rw [if_pos (by norm_num)]
      simp [dragToSubBench, soloField]
    rw [this]
    exact List.mem_singleton.2 rfl
  exact c6_bench_drop 400 800 "a" 100 795 soloField (by norm_num)
    (Player.mk "a" "A" 0 0 true false) hmem rfl

/-! ### Claim C4: substitute drag release -/

/-- Claim C4 is corrected: the in-field test of the code has no lower
bound on the release `y` (`currentY < fieldHeight && currentX >= 0 &&
currentX <= fieldWidth`).  When the test holds the substitute becomes a
field player at the release point clamped into
`[0, w - 60] × [0, h - 60]`; when it fails the registry is unchanged. -/
theorem c4_sub_release (w h : ℚ) (pid : String) (rx ry : ℚ) (ps : List Player) :
    ((ry < h ∧ 0 ≤ rx ∧ rx ≤ w) →
      subReleaseOp w h pid rx ry ps =
        ps.map (fun p =>
          if p.id = pid then
            { p with isOnField := true,
                     x := max 0 (min (w - 60) rx),
                     y := max 0 (min (h - 60) ry) }
          else p)) ∧
    (¬ (ry < h ∧ 0 ≤ rx ∧ rx ≤ w) → subReleaseOp w h pid rx ry ps = ps) := by
  constructor
  · intro hin
    unfold subReleaseOp
    rw [if_pos hin]
    unfold dragToField clampX clampY PLAYER_SIZE
    rfl
  · intro hout
    unfold subReleaseOp
    rw [if_neg hout]

/-- Counterexample to C4 as stated: the release point `(10, -50)` lies
outside the claimed rectangle (its `y` is negative), yet the code's
in-field test accepts it and the registry changes. -/
theorem c4_counterexample :
    ((-50 : ℚ) < 0) ∧ subReleaseOp 400 800 "a" 10 (-50) soloSub ≠ soloSub := by
  refine ⟨by norm_num, ?_⟩
  have hres : subReleaseOp 400 800 "a" 10 (-50) soloSub =
      [Player.mk "a" "A" 10 0 true true] := by
    unfold subReleaseOp
    rw [if_pos (by norm_num)]
    unfold dragToField soloSub
    simp only [List.map_cons, List.map_nil, if_true]
    have hx : clampX 400 10 = 10 := by
      unfold clampX PLAYER_SIZE
      rw [min_eq_right (by norm_num), max_eq_right (by norm_num)]
    have hy : clampY 800 (-50) = 0 := by
      unfold clampY PLAYER_SIZE
      rw [min_eq_right (by norm_num), max_eq_left (by norm_num)]
    rw [hx, hy]
  rw [hres]
  intro hcontra
  have := List.head_eq_of_cons_eq hcontra
  simp [soloSub] at this

/-- Witness for C4 at a concrete state: the substitute released at
`(10, -50)` on a `400 × 800` pitch enters the field at `(10, 0)`. -/
theorem c4_witness :
    subReleaseOp 400 800 "a" 10 (-50) soloSub =
      [Player.mk "a" "A" 10 0 true true] := by
  rw [(c4_sub_release 400 800 "a" 10 (-50) soloSub).1
    ⟨by norm_num, by norm_num, by norm_num⟩]
  unfold soloSub
  simp only [List.map_cons, List.map_nil, if_true]
  have hx : max (0:ℚ) (min (400 - 60) 10) = 10 := by
    rw [min_eq_right (by norm_num), max_eq_right (by norm_num)]
  have hy : max (0:ℚ) (min (800 - 60) (-50)) = 0 := by
    rw [min_eq_right (by norm_num), max_eq_left (by norm_num)]
  rw [hx, hy]

/-! ### Claim C2: operations on an unmeasured pitch -/

/-- On a `0 × 0` pitch every coordinate the arrangement computes clamps
to `(0, 0)`, whatever the count and index. -/
theorem clampCoord_zero_pitch (n index : Nat) :
    clampCoord 0 0 (rawCoord n 0 0 index) = (0, 0) := by
  have hx : ∀ v : ℚ, clampX 0 v = 0 := by
    intro v
    unfold clampX PLAYER_SIZE
    exact max_eq_left (le_trans (min_le_left _ _) (by norm_num))
  have hy : ∀ v : ℚ, clampY 0 v = 0 := by
    intro v
    unfold clampY PLAYER_SIZE
    exact max_eq_left (le_trans (min_le_left _ _) (by norm_num))
  unfold rawCoord clampCoord
  split
  · exact Prod.ext (hx _) (hy _)
  · exact Prod.ext (hx _) (hy _)

/-- Claim C2 is corrected: `arrangeInGAAFormation` does not reject a
zero-size pitch.  With a non-empty field-player set it still rewrites
the registry, moving every field player to `(0, 0)` (the clamp of the
degenerate coordinates); no error is raised because the operation is a
total function. -/
theorem c2_zero_pitch_rewrites (ps : List Player)
    (hne : (ps.filter fieldFilter).length ≠ 0) :
    arrangeOp 0 0 ps =
      ps.map (fun p => if fieldFilter p then { p with x := 0, y := 0 } else p) := by
  unfold arrangeOp
  simp only [if_neg hne]
  apply List.map_congr_left
  intro p _
  unfold arrangeAssign
  by_cases hp : fieldFilter p
  · rw [if_pos hp, if_pos hp]
    rw [show clampCoord 0 0 (rawCoord (List.filter fieldFilter ps).length 0 0
      (List.findIdx (fun q => q.id == p.id) (List.filter fieldFilter ps))) = (0, 0)
      from clampCoord_zero_pitch _ _]
  · rw [if_neg hp, if_neg hp]

/-- Counterexample to C2 as stated: on the unmeasured `0 × 0` pitch,
auto-arrange over a registry with one field player at `(5, 5)` is not a
no-op — the player is moved to `(0, 0)`. -/
theorem c2_counterexample : arrangeOp 0 0 soloField ≠ soloField := by
  have hres : arrangeOp 0 0 soloField = [Player.mk "a" "A" 0 0 true true] := by
    simp [arrangeOp, soloField, fieldFilter, arrangeAssign, rawCoord, tableCoord,
      clampCoord, clampX, clampY, PLAYER_SIZE]
  rw [hres]
  intro hcontra
  have := List.head_eq_of_cons_eq hcontra
  simp [soloField] at this

/-- Witness for C2's corrected statement at a concrete state with one
field player. -/
theorem c2_witness :
    arrangeOp 0 0 soloField =
      soloField.map (fun p => if fieldFilter p then { p with x := 0, y := 0 } else p) :=
  c2_zero_pitch_rewrites soloField (by simp [soloField, fieldFilter])

/-! ### Claim C9: bounds of the arranged coordinates -/

/-- Claim C9 is corrected: for every count `n` in `1..30` the
arrangement yields exactly `n` coordinate pairs, and provided the pitch
is at least one player diameter in each dimension (`60 ≤ w`, `60 ≤ h`)
every pair lies within `[0, w - 60] × [0, h - 60]`; the clamp gives the
bound regardless of which branch produced the raw coordinate. -/
theorem c9_arrange_bounds (n : Nat) (w h : ℚ) (h1 : 1 ≤ n) (h2 : n ≤ 30)
    (hw : 60 ≤ w) (hh : 60 ≤ h) :
    (arrangeCoords n w h).length = n ∧
      ∀ c ∈ arrangeCoords n w h,
        0 ≤ c.1 ∧ c.1 ≤ w - 60 ∧ 0 ≤ c.2 ∧ c.2 ≤ h - 60 := by
  constructor
  · simp [arrangeCoords]
  · intro c hc
    obtain ⟨i, _, rfl⟩ := List.mem_map.1 hc
    unfold clampCoord clampX clampY PLAYER_SIZE
    refine ⟨le_max_left 0 _, max_le (by linarith) (min_le_left _ _),
      le_max_left 0 _, max_le (by linarith) (min_le_left _ _)⟩

/-- Counterexample to C9 as stated: on the positive but undersized
pitch `30 × 800`, with a single field player, the arranged coordinate
is `(0, 40)`, which cannot lie in the empty band `[0, 30 - 60]`. -/
theorem c9_counterexample :
    ¬ (∀ c ∈ arrangeCoords 1 30 800,
        0 ≤ c.1 ∧ c.1 ≤ 30 - 60 ∧ 0 ≤ c.2 ∧ c.2 ≤ 800 - 60) := by
  intro hcl
  have hmem : ((0 : ℚ), (40 : ℚ)) ∈ arrangeCoords 1 30 800 := by
    have : arrangeCoords 1 30 800 = [((0 : ℚ), (40 : ℚ))] := by
      simp [arrangeCoords, List.range_succ, rawCoord, tableCoord, clampCoord,
        clampX, clampY, PLAYER_SIZE]
      norm_num [min_def, max_def]
    rw [this]
    exact List.mem_singleton.2 rfl
  have := (hcl _ hmem).2.1
  norm_num at this

/-- Witness for C9's corrected statement: three field players on a
`400 × 800` pitch get exactly three coordinate pairs. -/
theorem c9_witness : (arrangeCoords 3 400 800).length = 3 :=
  (c9_arrange_bounds 3 400 800 (by norm_num) (by norm_num) (by norm_num)
    (by norm_num)).1

/-! ### Claim C1: sixteen field players on a 400 × 800 pitch -/

/-- Claim C1 is corrected: with 16 field players `arrangeInGAAFormation`
takes the even-grid branch (`playersCount > 15`), never the positional
table.  On a `400 × 800` pitch the grid has 4 columns and 4 rows with
cells `80 × 160`, and every index `i` is placed at
`(80·(i % 4 + 1) - 30, 160·(i / 4 + 1) - 30)`; in particular index 15
lands at `(290, 610)`, already within bounds. -/
theorem c1_sixteen_grid :
    arrangeCoords 16 400 800 =
      [(50, 130), (130, 130), (210, 130), (290, 130),
       (50, 290), (130, 290), (210, 290), (290, 290),
       (50, 450), (130, 450), (210, 450), (290, 450),
       (50, 610), (130, 610), (210, 610), (290, 610)] := by
  have hsqrt : Nat.sqrt 16 = 4 := by
    rw [show (16 : ℕ) = 4 * 4 from rfl, Nat.sqrt_eq]
  simp [arrangeCoords, List.range_succ, rawCoord, gridCoord, gridCols, hsqrt,
    clampCoord, clampX, clampY, PLAYER_SIZE]
  norm_num [min_def, max_def]

/-- Counterexample to C1 as stated: index 15 is not placed at
`(200, 560)` — the grid branch puts it at `(290, 610)`. -/
theorem c1_counterexample :
    ¬ ((arrangeCoords 16 400 800)[15]? = some ((200 : ℚ), (560 : ℚ))) := by
  intro hcl
  have hsqrt : Nat.sqrt 16 = 4 := by
    rw [show (16 : ℕ) = 4 * 4 from rfl, Nat.sqrt_eq]
  have hval : (arrangeCoords 16 400 800)[15]? = some ((290 : ℚ), (610 : ℚ)) := by
    simp [arrangeCoords, List.range_succ, rawCoord, gridCoord, gridCols, hsqrt,
      clampCoord, clampX, clampY, PLAYER_SIZE]
    norm_num [min_def, max_def]
  rw [hval] at hcl
  have := Option.some.inj hcl
  have hx := congrArg Prod.fst this
  norm_num at hx

/-! ### Claim C7: reset coordinates -/

/-- Claim C7 is corrected: `resetPositions` never clamps.  A field
player gets `draw · (dim - 60) + 10` on each axis, which for draws in
`[0, 1)` and dimensions `≥ 60` lies in `[10, dim - 50]` — a band that
exceeds the claimed `[0, dim - 60]` whenever the draw is close enough
to 1.  Non-field players' coordinates are forced to `(0, 0)`. -/
theorem c7_reset_bounds (w h : ℚ) (draw : Nat → ℚ × ℚ)
    (hw : 60 ≤ w) (hh : 60 ≤ h)
    (hdraw : ∀ i, 0 ≤ (draw i).1 ∧ (draw i).1 < 1 ∧
      0 ≤ (draw i).2 ∧ (draw i).2 < 1)
    (ps : List Player) (k : Nat) :
    ∀ p ∈ resetOp draw w h k ps,
      (p.isOnField = true → 10 ≤ p.x ∧ p.x ≤ w - 50 ∧ 10 ≤ p.y ∧ p.y ≤ h - 50) ∧
      (p.isOnField = false → p.x = 0 ∧ p.y = 0) := by
  induction ps generalizing k with
  | nil =>
    intro p hp
    simp [resetOp] at hp
  | cons q qs ih =>
    intro p hp
    rw [show resetOp draw w h k (q :: qs) = _ :: resetOp draw w h (k + 1) qs
      from rfl] at hp
    rcases List.mem_cons.1 hp with hp | hp
    · subst hp
      obtain ⟨h1, h2, h3, h4⟩ := hdraw k
      constructor
      · intro hof
        have hq : q.isOnField = true := hof
        have hx1 : 0 ≤ (draw k).1 * (w - 60) := mul_nonneg h1 (by linarith)
        have hx2 : (draw k).1 * (w - 60) ≤ w - 60 :=
          mul_le_of_le_one_left (by linarith) (le_of_lt h2)
        have hy1 : 0 ≤ (draw k).2 * (h - 60) := mul_nonneg h3 (by linarith)
        have hy2 : (draw k).2 * (h - 60) ≤ h - 60 :=
          mul_le_of_le_one_left (by linarith) (le_of_lt h4)
        simp only [hq, if_true, PLAYER_SIZE]
        refine ⟨by linarith, by linarith, by linarith, by linarith⟩
      · intro hof
        have hq : q.isOnField = false := hof
        simp [hq]
    · exact ih (k + 1) p hp

/-- Counterexample to C7 as stated: with both draws at `99/100` on a
`400 × 800` pitch, the single field player's new `x` is
`99/100 · 340 + 10 = 346.6`, outside the claimed band `[0, 400 - 60]`. -/
theorem c7_counterexample :
    ∃ p ∈ resetOp drawNinetyNine 400 800 0 soloField,
      p.isOnField = true ∧ ¬ (p.x ≤ 400 - 60) := by
  refine ⟨Player.mk "a" "A" (1733/5) (3713/5) true true, ?_, rfl, by norm_num⟩
  have : resetOp drawNinetyNine 400 800 0 soloField =
      [Player.mk "a" "A" (1733/5) (3713/5) true true] := by
    simp [resetOp, soloField, drawNinetyNine, PLAYER_SIZE]
    norm_num
  rw [this]
  exact List.mem_singleton.2 rfl

/-- Witness for C7's corrected statement: with draws of `1/2` the solo
field player lands at `(180, 380)`, inside `[10, 350] × [10, 750]`. -/
theorem c7_witness :
    (10 : ℚ) ≤ 180 ∧ (180 : ℚ) ≤ 400 - 50 ∧ (10 : ℚ) ≤ 380 ∧ (380 : ℚ) ≤ 800 - 50 := by
  have hmem : Player.mk "a" "A" 180 380 true true ∈
      resetOp drawHalf 400 800 0 soloField := by
    have : resetOp drawHalf 400 800 0 soloField =
        [Player.mk "a" "A" 180 380 true true] := by
      simp [resetOp, soloField, drawHalf, PLAYER_SIZE]
      norm_num
    rw [this]
    exact List.mem_singleton.2 rfl
  exact (c7_reset_bounds 400 800 drawHalf (by norm_num) (by norm_num)
    (fun i => by simp [drawHalf]; norm_num) soloField 0
    (Player.mk "a" "A" 180 380 true true) hmem).1 rfl

/-! ### Claim C5: resolved substitute/field swap -/

/-- With pairwise-distinct ids, two registry members sharing an id are
the same player. -/
theorem idUnique (ps : List Player) (hnd : NodupIds ps) :
    ∀ p ∈ ps, ∀ q ∈ ps, p.id = q.id → p = q := by
  intro p hp q hq hpq
  exact List.inj_on_of_nodup_map hnd hp hq hpq

/-- Claim C5: after the caller chooses field player `fp` to swap with
substitute `sub`, the substitute is on the field at exactly `fp`'s old
coordinates, `fp` is off the field at `(0, 0)`, the field-player count
is unchanged, every other player is untouched, and choosing Cancel
mutates nothing. -/
theorem c5_swap_resolution (ps : List Player) (sub fp : Player)
    (hnd : NodupIds ps) (hsub : sub ∈ ps) (hsof : sub.isOnField = false)
    (hsav : sub.isAvailable = true) (hfp : fp ∈ ps) (hfof : fp.isOnField = true)
    (hfav : fp.isAvailable = true) :
    (∀ p ∈ swapOp sub.id fp ps,
      (p.id = sub.id → p.isOnField = true ∧ p.x = fp.x ∧ p.y = fp.y) ∧
      (p.id = fp.id → p.isOnField = false ∧ p.x = 0 ∧ p.y = 0)) ∧
    fieldCount (swapOp sub.id fp ps) = fieldCount ps ∧
    (∀ (i : Nat) (p : Player), ps[i]? = some p →
      p.id ≠ sub.id → p.id ≠ fp.id → (swapOp sub.id fp ps)[i]? = some p) ∧
    swapResolve sub.id none ps = ps := by
  have hne : sub ≠ fp := by
    intro hcontra
    rw [hcontra, hfof] at hsof
    exact Bool.noConfusion hsof
  have hneid : sub.id ≠ fp.id := fun hcontra =>
    hne (idUnique ps hnd sub hsub fp hfp hcontra)
  have hfpne : fp.id ≠ sub.id := fun hcontra => hneid hcontra.symm
  refine ⟨?_, ?_, ?_, rfl⟩
  · intro p hp
    obtain ⟨q, hq, rfl⟩ := List.mem_map.1 hp
    constructor
    · intro hid
      by_cases h1 : q.id = sub.id
      · simp [if_pos h1]
      · exfalso
        by_cases h2 : q.id = fp.id
        · rw [if_neg h1, if_pos h2] at hid
          exact hneid (hid.symm.trans h2)
        · rw [if_neg h1, if_neg h2] at hid
          exact h1 hid
    · intro hid
      by_cases h1 : q.id = sub.id
      · exfalso
        rw [if_pos h1] at hid
        exact hneid (h1 ▸ hid)
      · by_cases h2 : q.id = fp.id
        · simp [if_neg h1, if_pos h2]
        · exfalso
          rw [if_neg h1, if_neg h2] at hid
          exact h2 hid
  · -- field count: decompose the registry as sub :: fp :: rest
    have hpsnd : ps.Nodup := hnd.of_map Player.id
    have hfp' : fp ∈ ps.erase sub :=
      hpsnd.mem_erase_iff.2 ⟨fun hcontra => hne hcontra.symm, hfp⟩
    have hperm : ps.Perm (sub :: fp :: (ps.erase sub).erase fp) :=
      (List.perm_cons_erase hsub).trans
        (List.Perm.cons sub (List.perm_cons_erase hfp'))
    have hrest : ∀ p ∈ (ps.erase sub).erase fp, p.id ≠ sub.id ∧ p.id ≠ fp.id := by
      intro p hp
      have h2 := ((hpsnd.erase sub).mem_erase_iff).1 hp
      have h3 := (hpsnd.mem_erase_iff).1 h2.2
      have hpmem : p ∈ ps := h3.2
      exact ⟨fun hcontra => h3.1 (idUnique ps hnd p hpmem sub hsub hcontra),
        fun hcontra => h2.1 (idUnique ps hnd p hpmem fp hfp hcontra)⟩
    set f : Player → Player := fun p =>
      if p.id = sub.id then { p with isOnField := true, x := fp.x, y := fp.y }
      else if p.id = fp.id then { p with isOnField := false, x := 0, y := 0 }
      else p with hf
    have hfsub : fieldFilter (f sub) = true := by
      simp only [hf]
      simp [fieldFilter, hsav]
    have hffp : fieldFilter (f fp) = false := by
      simp only [hf]
      simp [hfpne, fieldFilter]
    have hfsub0 : fieldFilter sub = false := by
      simp [fieldFilter, hsof]
    have hffp0 : fieldFilter fp = true := by
      simp [fieldFilter, hfof, hfav]
    have hcount : ((ps.erase sub).erase fp).countP (fieldFilter ∘ f) =
        ((ps.erase sub).erase fp).countP fieldFilter := by
      apply List.countP_congr
      intro p hp
      obtain ⟨hp1, hp2⟩ := hrest p hp
      simp only [Function.comp_apply, hf]
      simp [hp1, hp2]
    have hmap : swapOp sub.id fp ps = ps.map f := rfl
    unfold fieldCount
    rw [hmap, ← List.countP_eq_length_filter, ← List.countP_eq_length_filter,
      List.countP_map]
    rw [hperm.countP_eq (fieldFilter ∘ f), hperm.countP_eq fieldFilter]
    simp only [List.countP_cons, Function.comp_apply]
    rw [hcount]
    simp only [hfsub, hffp, hfsub0, hffp0]
    omega
  · intro i p hpi hp1 hp2
    have : (swapOp sub.id fp ps)[i]? = ps[i]?.map _ := List.getElem?_map _ ps i
    rw [this, hpi]
    simp only [Option.map_some']
    rw [if_neg hp1, if_neg hp2]

/-- Witness for C5 at a concrete two-player squad: substitute `"s"`
swaps with field player `"f"` and the field-player count stays at 1. -/
theorem c5_witness :
    fieldCount (swapOp "s" (Player.mk "f" "F" 7 8 true true) pairSquad) =
      fieldCount pairSquad := by
  have h := c5_swap_resolution pairSquad (Player.mk "s" "S" 1 2 true false)
    (Player.mk "f" "F" 7 8 true true)
    (by simp [NodupIds, pairSquad])
    (by simp [pairSquad]) rfl rfl (by simp [pairSquad]) rfl rfl
  exact h.2.1

/-! ### Claim C8: idempotence of auto-arrange -/

/-- `findIdx` over a mapped list tests the composed predicate. -/
theorem findIdx_map_comp (f : Player → Player) (pr : Player → Bool)
    (l : List Player) :
    (l.map f).findIdx pr = l.findIdx (fun a => pr (f a)) := by
  induction l with
  | nil => rfl
  | cons a t ih => simp [List.findIdx_cons, ih]

/-- Re-running the per-player assignment against the already-arranged
field list reproduces the same player: the index lookup is by id, ids
are preserved, and the coordinates depend only on count, pitch and
index. -/
theorem arrangeAssign_idem (fl : List Player) (n : Nat) (w h : ℚ) (p : Player) :
    arrangeAssign (fl.map (arrangeAssign fl n w h)) n w h
      (arrangeAssign fl n w h p) = arrangeAssign fl n w h p := by
  by_cases hp : fieldFilter p
  · have hidx : (fl.map (arrangeAssign fl n w h)).findIdx
        (fun q => q.id == (arrangeAssign fl n w h p).id) =
        fl.findIdx (fun q => q.id == p.id) := by
      rw [findIdx_map_comp]
      congr 1
      funext q
      rw [arrangeAssign_id, arrangeAssign_id]
    have hp' : fieldFilter (arrangeAssign fl n w h p) = true := by
      rw [arrangeAssign_fieldFilter]
      exact hp
    conv_lhs => rw [arrangeAssign]
    rw [if_pos hp', hidx]
    conv_lhs => rw [show arrangeAssign fl n w h p =
      { p with
        x := (clampCoord w h (rawCoord n w h (fl.findIdx (fun q => q.id == p.id)))).1,
        y := (clampCoord w h (rawCoord n w h (fl.findIdx (fun q => q.id == p.id)))).2 }
      from by rw [arrangeAssign, if_pos hp]]
    rw [show arrangeAssign fl n w h p =
      { p with
        x := (clampCoord w h (rawCoord n w h (fl.findIdx (fun q => q.id == p.id)))).1,
        y := (clampCoord w h (rawCoord n w h (fl.findIdx (fun q => q.id == p.id)))).2 }
      from by rw [arrangeAssign, if_pos hp]]
  · have hq : arrangeAssign fl n w h p = p := by
      rw [arrangeAssign, if_neg hp]
    rw [hq, arrangeAssign, if_neg hp]

/-- Claim C8: on a positive pitch, applying auto-arrange twice with the
pitch and the field membership unchanged in between yields the same
registry as applying it once. -/
theorem c8_arrange_idem (w h : ℚ) (hw : 0 < w) (hh : 0 < h) (ps : List Player) :
    arrangeOp w h (arrangeOp w h ps) = arrangeOp w h ps := by
  by_cases h0 : (ps.filter fieldFilter).length = 0
  · unfold arrangeOp
    simp only [if_pos h0]
  · have hstep : arrangeOp w h ps =
        ps.map (arrangeAssign (ps.filter fieldFilter)
          (ps.filter fieldFilter).length w h) := by
      unfold arrangeOp
      simp only [if_neg h0]
    have hfilter : (arrangeOp w h ps).filter fieldFilter =
        (ps.filter fieldFilter).map (arrangeAssign (ps.filter fieldFilter)
          (ps.filter fieldFilter).length w h) := by
      rw [hstep, List.filter_map]
      congr 1
      apply List.filter_congr
      intro p _
      simp [Function.comp, arrangeAssign_fieldFilter]
    have hlen : ((arrangeOp w h ps).filter fieldFilter).length =
        (ps.filter fieldFilter).length := by
      rw [hfilter, List.length_map]
    conv_lhs => rw [arrangeOp]
    simp only [hfilter, List.length_map, if_neg h0]
    rw [hstep, List.map_map]
    apply List.map_congr_left
    intro p _
    exact arrangeAssign_idem (ps.filter fieldFilter)
      (ps.filter fieldFilter).length w h p

/-- Witness for C8 at a concrete squad and pitch. -/
theorem c8_witness :
    arrangeOp 400 800 (arrangeOp 400 800 pairSquad) = arrangeOp 400 800 pairSquad :=
  c8_arrange_idem 400 800 (by norm_num) (by norm_num) pairSquad

/-! ### Claim C3: the availability invariant -/

/-- Mapping an id-preserving update keeps the id projection. -/
theorem map_ids_eq (f : Player → Player) (hf : ∀ p, (f p).id = p.id)
    (ps : List Player) : (ps.map f).map Player.id = ps.map Player.id := by
  rw [List.map_map]
  apply List.map_congr_left
  intro p _
  exact hf p

/-- Mapping an id-preserving update keeps `NodupIds`. -/
theorem nodup_map_pres (f : Player → Player) (hf : ∀ p, (f p).id = p.id)
    (ps : List Player) (hnd : NodupIds ps) : NodupIds (ps.map f) := by
  unfold NodupIds
  rw [map_ids_eq f hf]
  exact hnd

/-- Mapping an availability-preserving update that never promotes an
unavailable bench player keeps `AvailInv`. -/
theorem availInv_map (f : Player → Player) (ps : List Player)
    (hav : ∀ p, (f p).isAvailable = p.isAvailable)
    (hof : ∀ p ∈ ps, p.isAvailable = false → p.isOnField = false →
      (f p).isOnField = false)
    (h : AvailInv ps) : AvailInv (ps.map f) := by
  intro p hp hpav
  obtain ⟨q, hq, rfl⟩ := List.mem_map.1 hp
  have hqav : q.isAvailable = false := by
    rw [← hav q]
    exact hpav
  exact hof q hq hqav (h q hq hqav)

/-- With unique ids, an id that names an available substitute names
only available players. -/
theorem avail_of_unique (ps : List Player) (pid : String) (hnd : NodupIds ps)
    (hmem : ∃ q ∈ ps, q.id = pid ∧ q.isOnField = false ∧ q.isAvailable = true) :
    ∀ p ∈ ps, p.id = pid → p.isAvailable = true := by
  obtain ⟨q, hq, hqid, _, hqav⟩ := hmem
  intro p hp hpid
  have hpq : p = q := idUnique ps hnd p hp q hq (by rw [hpid, hqid])
  rw [hpq]
  exact hqav

/-- `resetOp` keeps the id projection. -/
theorem resetOp_ids (draw : Nat → ℚ × ℚ) (w h : ℚ) :
    ∀ (k : Nat) (ps : List Player),
      (resetOp draw w h k ps).map Player.id = ps.map Player.id := by
  intro k ps
  induction ps generalizing k with
  | nil => rfl
  | cons q qs ih => simp [resetOp, ih]

/-- `resetOp` keeps `AvailInv`: it never touches the two flags. -/
theorem resetOp_availInv (draw : Nat → ℚ × ℚ) (w h : ℚ) :
    ∀ (k : Nat) (ps : List Player), AvailInv ps →
      AvailInv (resetOp draw w h k ps) := by
  intro k ps
  induction ps generalizing k with
  | nil => intro _ p hp; simp [resetOp] at hp
  | cons q qs ih =>
    intro hinv p hp hpav
    rw [show resetOp draw w h k (q :: qs) = _ :: resetOp draw w h (k + 1) qs
      from rfl] at hp
    rcases List.mem_cons.1 hp with hp | hp
    · subst hp
      exact hinv q (List.mem_cons_self q qs) hpav
    · exact ih (k + 1) (fun r hr => hinv r (List.mem_cons_of_mem q hr)) p hp hpav

/-- The seeded registry keeps the setup ids. -/
theorem seedPlayers_ids (draw : Nat → ℚ × ℚ) :
    ∀ (k : Nat) (base : List SetupPlayer),
      (seedPlayers draw k base).map Player.id = base.map SetupPlayer.id := by
  intro k base
  induction base generalizing k with
  | nil => rfl
  | cons b bs ih => simp [seedPlayers, ih]

/-- The seeded registry satisfies the availability invariant:
`isOnField` is initialised to `isAvailable`. -/
theorem seedPlayers_availInv (draw : Nat → ℚ × ℚ) :
    ∀ (k : Nat) (base : List SetupPlayer), AvailInv (seedPlayers draw k base) := by
  intro k base
  induction base generalizing k with
  | nil => intro p hp; simp [seedPlayers] at hp
  | cons b bs ih =>
    intro p hp hpav
    rw [show seedPlayers draw k (b :: bs) = _ :: seedPlayers draw (k + 1) bs
      from rfl] at hp
    rcases List.mem_cons.1 hp with hp | hp
    · subst hp
      exact hpav
    · exact ih (k + 1) p hp hpav

/-- Every formation-screen event preserves unique ids and the
availability invariant. -/
theorem step_preserves_inv {s t : FState} (hstep : Step s t)
    (h : NodupIds s.players ∧ AvailInv s.players) :
    NodupIds t.players ∧ AvailInv t.players := by
  obtain ⟨hnd, hinv⟩ := h
  have hid_pos : ∀ (pid : String) (nx ny : ℚ) (p : Player),
      ((fun p => if p.id = pid then { p with x := nx, y := ny } else p) p).id
        = p.id := by
    intro pid nx ny p
    by_cases hid : p.id = pid <;> simp [hid]
  have hid_bench : ∀ (pid : String) (p : Player),
      ((fun p => if p.id = pid then { p with isOnField := false, x := 0, y := 0 }
        else p) p).id = p.id := by
    intro pid p
    by_cases hid : p.id = pid <;> simp [hid]
  have hid_field : ∀ (pid : String) (nx ny : ℚ) (p : Player),
      ((fun p => if p.id = pid then { p with isOnField := true, x := nx, y := ny }
        else p) p).id = p.id := by
    intro pid nx ny p
    by_cases hid : p.id = pid <;> simp [hid]
  have hinv_pos : ∀ (pid : String) (nx ny : ℚ) (ps : List Player),
      NodupIds ps → AvailInv ps →
      NodupIds (posChange pid nx ny ps) ∧ AvailInv (posChange pid nx ny ps) := by
    intro pid nx ny ps hnd hinv
    refine ⟨nodup_map_pres _ (hid_pos pid nx ny) ps hnd, ?_⟩
    refine availInv_map _ ps (fun p => ?_) (fun p hp hav hof => ?_) hinv
    · by_cases hid : p.id = pid <;> simp [hid]
    · by_cases hid : p.id = pid <;> simp [hid, hof]
  have hinv_bench : ∀ (pid : String) (ps : List Player),
      NodupIds ps → AvailInv ps →
      NodupIds (dragToSubBench pid ps) ∧ AvailInv (dragToSubBench pid ps) := by
    intro pid ps hnd hinv
    refine ⟨nodup_map_pres _ (hid_bench pid) ps hnd, ?_⟩
    refine availInv_map _ ps (fun p => ?_) (fun p hp hav hof => ?_) hinv
    · by_cases hid : p.id = pid <;> simp [hid]
    · by_cases hid : p.id = pid <;> simp [hid, hof]
  have hinv_field : ∀ (pid : String) (nx ny : ℚ) (ps : List Player),
      NodupIds ps → AvailInv ps →
      (∀ p ∈ ps, p.id = pid → p.isAvailable = true) →
      NodupIds (dragToField pid nx ny ps) ∧ AvailInv (dragToField pid nx ny ps) := by
    intro pid nx ny ps hnd hinv hall
    refine ⟨nodup_map_pres _ (hid_field pid nx ny) ps hnd, ?_⟩
    refine availInv_map _ ps (fun p => ?_) (fun p hp hav hof => ?_) hinv
    · by_cases hid : p.id = pid <;> simp [hid]
    · by_cases hid : p.id = pid
      · exact absurd (hall p hp hid) (by rw [hav]; exact Bool.noConfusion)
      · simp [hid, hof]
  cases hstep with
  | layout w h => exact ⟨hnd, hinv⟩
  | fieldRelease pid rx ry hmem hw hh =>
    show NodupIds (fieldReleaseOp _ _ _ _ _ _) ∧
      AvailInv (fieldReleaseOp _ _ _ _ _ _)
    unfold fieldReleaseOp
    split
    · exact hinv_bench pid s.players hnd hinv
    · exact hinv_pos pid _ _ s.players hnd hinv
  | subRelease pid rx ry hmem =>
    show NodupIds (subReleaseOp _ _ _ _ _ _) ∧
      AvailInv (subReleaseOp _ _ _ _ _ _)
    unfold subReleaseOp
    split
    · exact hinv_field pid _ _ s.players hnd hinv
        (avail_of_unique s.players pid hnd hmem)
    · exact ⟨hnd, hinv⟩
  | swapChoose subId fp hsub hfp =>
    have hall := avail_of_unique s.players subId hnd hsub
    constructor
    · refine nodup_map_pres _ (fun p => ?_) s.players hnd
      by_cases h1 : p.id = subId
      · simp only [if_pos h1]
      · by_cases h2 : p.id = fp.id
        · simp only [if_neg h1, if_pos h2]
        · simp only [if_neg h1, if_neg h2]
    · refine availInv_map _ s.players (fun p => ?_) (fun p hp hav hof => ?_) hinv
      · by_cases h1 : p.id = subId
        · simp only [if_pos h1]
        · by_cases h2 : p.id = fp.id
          · simp only [if_neg h1, if_pos h2]
          · simp only [if_neg h1, if_neg h2]
      · by_cases h1 : p.id = subId
        · exact absurd (hall p hp h1) (by rw [hav]; exact Bool.noConfusion)
        · by_cases h2 : p.id = fp.id
          · simp only [if_neg h1, if_pos h2]
          · simp only [if_neg h1, if_neg h2]
            exact hof
  | swapCancel subId hsub => exact ⟨hnd, hinv⟩
  | swapZero subId r1 r2 hsub hzero =>
    exact hinv_field subId _ _ s.players hnd hinv
      (avail_of_unique s.players subId hnd hsub)
  | arrangeStep =>
    show NodupIds (arrangeOp _ _ _) ∧ AvailInv (arrangeOp _ _ _)
    by_cases h0 : (s.players.filter fieldFilter).length = 0
    · unfold arrangeOp
      simp only [if_pos h0]
      exact ⟨hnd, hinv⟩
    · unfold arrangeOp
      simp only [if_neg h0]
      constructor
      · exact nodup_map_pres _ (fun p => arrangeAssign_id _ _ _ _ p)
          s.players hnd
      · refine availInv_map _ s.players
          (fun p => arrangeAssign_isAvailable _ _ _ _ p)
          (fun p hp hav hof => ?_) hinv
        rw [arrangeAssign_isOnField]
        exact hof
  | resetStep draw =>
    exact ⟨by
        show NodupIds (resetOp _ _ _ _ _)
        unfold NodupIds
        rw [resetOp_ids]
        exact hnd,
      resetOp_availInv draw s.width s.height 0 s.players hinv⟩

/-- Claim C3 is corrected to exclude the storage merge: every state
reachable on the formation screen from a seeded squad through drag
releases, swaps, auto-arrange, reset and relayout keeps the invariant
that no unavailable player is on the field. -/
theorem c3_availability_invariant (s : FState) (hreach : Reach s) :
    AvailInv s.players := by
  have strong : ∀ t : FState, Reach t → NodupIds t.players ∧ AvailInv t.players := by
    intro t ht
    induction ht with
    | seed base draw hnodup =>
      constructor
      · show NodupIds (seedPlayers draw 0 base)
        unfold NodupIds
        rw [seedPlayers_ids]
        exact hnodup
      · exact seedPlayers_availInv draw 0 base
    | step hr hstep ih => exact step_preserves_inv hstep ih
  exact (strong s hreach).2

/-- Counterexample to C3 as stated: the session-start merge restores a
saved `isOnField = true` for a player whose availability is now
`false`, producing an unavailable on-field player. -/
theorem c3_counterexample :
    ∃ p ∈ mergePositions savedOnField (seedPlayers drawZero 0 unavailBase),
      p.isAvailable = false ∧ p.isOnField = true := by
  refine ⟨Player.mk "a" "A" 3 4 false true, ?_, rfl, rfl⟩
  have : mergePositions savedOnField (seedPlayers drawZero 0 unavailBase) =
      [Player.mk "a" "A" 3 4 false true] := by
    simp [mergePositions, savedOnField, seedPlayers, drawZero, unavailBase,
      List.find?]
  rw [this]
  exact List.mem_singleton.2 rfl

/-- Witness for C3's corrected statement: the seeded one-player squad
is reachable and satisfies the invariant. -/
theorem c3_witness :
    AvailInv (FState.mk 0 0 (seedPlayers drawZero 0 unavailBase)).players :=
  c3_availability_invariant (FState.mk 0 0 (seedPlayers drawZero 0 unavailBase))
    (Reach.seed unavailBase drawZero (by simp [unavailBase]))
